import Mathlib

/-!
# Verification of the connectivity-processing pipeline

Shallow embedding of the data-transformation core of `src/app.py`
(a pandas pipeline: load, clean, aggregate, left-join, classify,
summarize), together with theorems settling the frozen claims about it.

Modelling conventions:
* A pandas cell is `Option PyStr` (`none` is NaN/missing); a Python
  string is a `PyStr := List Char` of code points.
* `pd.to_datetime(..., errors='coerce')` and `pd.to_numeric(...,
  errors='coerce')` are modelled by arbitrary total parse functions
  `PyStr → Option Nat` / `PyStr → Option Int`; a parse failure is
  `none`, never an exception (the embedding is parametric in them
  because no claim depends on which strings parse).
* Row order of a DataFrame is list order.  `groupby` output order is
  irrelevant to every claim, so groups are enumerated in first
  occurrence order of their keys.
-/

namespace Connectivity

/-- A Python string, as its list of characters. -/
abbrev PyStr := List Char

/-- Whitespace as recognised by Python's `str.strip` (ASCII part:
space, tab, newline, carriage return, vertical tab, form feed),
stated on code points. -/
def isWs (c : Char) : Bool :=
  c.toNat == 32 || c.toNat == 9 || c.toNat == 10 || c.toNat == 13 ||
  c.toNat == 11 || c.toNat == 12

/-- `str.upper()` (per character; basic latin, as in the data). -/
def pyUpper (s : PyStr) : PyStr := s.map Char.toUpper

/-- `str.strip()`: remove leading and trailing whitespace. -/
def pyStrip (s : PyStr) : PyStr := (s.dropWhile isWs).rdropWhile isWs

/-- `str.replace(" ", "")`: remove every space character. -/
def removeSpaces (s : PyStr) : PyStr := s.filter (fun c => !(c == ' '))

/-- `astype(str)` on a cell: a missing value (float NaN) prints as the
string `"nan"`; a present string stays itself. -/
def pyInputStr : Option PyStr → PyStr
  | none => ['n', 'a', 'n']
  | some s => s

/-- Device-identifier derivation on a string:
`.str.split('-').str[0].str.upper().str.strip()` — the substring before
the first hyphen, upper-cased, then trimmed. -/
def deriveStr (s : PyStr) : PyStr :=
  pyStrip (pyUpper (s.takeWhile (fun c => !(c == '-'))))

/-- Device-identifier derivation on a raw cell: `astype(str)` first,
then split/upper/strip (so the key is never missing). -/
def deriveKey (v : Option PyStr) : PyStr := deriveStr (pyInputStr v)

/-- The literal `'Service'` compared against `User_name`. -/
def serviceStr : PyStr := "Service".toList

/-- The literal `'Active'`. -/
def activeStr : PyStr := "Active".toList

/-- The literal `'Inactive'`. -/
def inactiveStr : PyStr := "Inactive".toList

/-- One raw run record (one row of the concatenated CSVs), restricted to
the 20 required columns selected at `app.py:114-121`; each cell may be
missing. -/
structure RawRun where
  Test_date_time : Option PyStr
  Profile_id : Option PyStr
  Patient_id : Option PyStr
  Test_result : Option PyStr
  Test_status : Option PyStr
  Lab_name : Option PyStr
  User_name : Option PyStr
  Sample_type : Option PyStr
  Truelab_id : Option PyStr
  Lot : Option PyStr
  Chip_serial_no : Option PyStr
  Ct1 : Option PyStr
  Ct2 : Option PyStr
  Ct3 : Option PyStr
  Load1 : Option PyStr
  Load2 : Option PyStr
  Load3 : Option PyStr
  Bayno : Option PyStr
  Chip_batchno : Option PyStr
  Result_recieved_date : Option PyStr
deriving DecidableEq

/-- One cleaned run record (row of `df_r` after `app.py:122-137`):
dates parsed to timestamps, Ct readings parsed to numbers, key derived. -/
structure CleanRun where
  Test_date_time : Option Nat
  Profile_id : Option PyStr
  Patient_id : Option PyStr
  Test_result : Option PyStr
  Test_status : Option PyStr
  Lab_name : Option PyStr
  User_name : Option PyStr
  Sample_type : Option PyStr
  Truelab_id : PyStr
  Lot : Option PyStr
  Chip_serial_no : Option PyStr
  Ct1 : Option Int
  Ct2 : Option Int
  Ct3 : Option Int
  Load1 : Option PyStr
  Load2 : Option PyStr
  Load3 : Option PyStr
  Bayno : Option PyStr
  Chip_batchno : Option PyStr
  Result_recieved_date : Option Nat
deriving DecidableEq

/-- Column-wise cleaning of one retained run record (`app.py:124-137`):
`Lab_name` upper+strip, `Lot` upper+remove spaces, two dates via
`to_datetime(errors='coerce')`, three Ct columns via
`to_numeric(errors='coerce')`, `Truelab_id` derived; all `.str`
operations propagate a missing cell. -/
def cleanRun (pdate : PyStr → Option Nat) (pnum : PyStr → Option Int)
    (r : RawRun) : CleanRun :=
  { Test_date_time := r.Test_date_time.bind pdate
    Profile_id := r.Profile_id
    Patient_id := r.Patient_id
    Test_result := r.Test_result
    Test_status := r.Test_status
    Lab_name := r.Lab_name.map (fun s => pyStrip (pyUpper s))
    User_name := r.User_name
    Sample_type := r.Sample_type
    Truelab_id := deriveKey r.Truelab_id
    Lot := r.Lot.map (fun s => removeSpaces (pyUpper s))
    Chip_serial_no := r.Chip_serial_no
    Ct1 := r.Ct1.bind pnum
    Ct2 := r.Ct2.bind pnum
    Ct3 := r.Ct3.bind pnum
    Load1 := r.Load1
    Load2 := r.Load2
    Load3 := r.Load3
    Bayno := r.Bayno
    Chip_batchno := r.Chip_batchno
    Result_recieved_date := r.Result_recieved_date.bind pdate }

/-- The Cleaner, run-record side (`app.py:122-137`): first drop every
row whose `User_name` equals `'Service'` (`df_r['User_name'] !=
'Service'`; a missing username compares unequal, hence is kept), then
clean each remaining row. -/
def clean_runs (pdate : PyStr → Option Nat) (pnum : PyStr → Option Int)
    (rows : List RawRun) : List CleanRun :=
  (rows.filter (fun r => !(r.User_name == some serviceStr))).map
    (cleanRun pdate pnum)

/-- One row of `runs_summary` (`app.py:140-148`). -/
structure DeviceAggregate where
  Truelab_id : PyStr
  Total_Runs : Nat
  Last_Run_Date : Option Nat
  Lab_name_Dashboard : Option PyStr
deriving DecidableEq

/-- Distinct elements of a list in first-occurrence order
(the key set of a `groupby`; its order is irrelevant to the claims). -/
def dedupSeen {α : Type} [DecidableEq α] (seen : List α) :
    List α → List α
  | [] => []
  | a :: t =>
    if a ∈ seen then dedupSeen seen t else a :: dedupSeen (a :: seen) t

/-- Distinct elements of a list, first occurrence first. -/
def dedupFirst {α : Type} [DecidableEq α] (l : List α) : List α :=
  dedupSeen [] l

/-- Maximum of a list of naturals, `none` when empty (pandas `max`
aggregation over the non-null values of a group). -/
def natMax? : List Nat → Option Nat
  | [] => none
  | n :: t => some (t.foldl Nat.max n)

/-- The rows of one `groupby('Truelab_id')` group, in original order. -/
def groupOf (rows : List CleanRun) (k : PyStr) : List CleanRun :=
  rows.filter (fun r => r.Truelab_id == k)

/-- The aggregation of one group (`app.py:142-146`): pandas named
aggregations `('Patient_id','count')` (number of non-null values),
`('Test_date_time','max')` (maximum over non-null values) and
`('Lab_name','last')` (last non-null value of the group). -/
def aggregateGroup (k : PyStr) (g : List CleanRun) : DeviceAggregate :=
  { Truelab_id := k
    Total_Runs := (g.filterMap (fun r => r.Patient_id)).length
    Last_Run_Date := natMax? (g.filterMap (fun r => r.Test_date_time))
    Lab_name_Dashboard := (g.filterMap (fun r => r.Lab_name)).getLast? }

/-- The Aggregator (`app.py:140-148`): one `DeviceAggregate` per
distinct derived device identifier among the cleaned rows. -/
def runs_summary (rows : List CleanRun) : List DeviceAggregate :=
  (dedupFirst (rows.map (fun r => r.Truelab_id))).map
    (fun k => aggregateGroup k (groupOf rows k))

/-- One raw roster row (`mst`), the six columns the pipeline uses;
each cell may be missing.  `SerialBatch` is the column
`'Serial / Batch ID: Serial / Batch #'`. -/
structure RawAccount where
  Zone : Option PyStr
  AccountName : Option PyStr
  BillingState : Option PyStr
  AccountOwnerFullName : Option PyStr
  CType : Option PyStr
  SerialBatch : Option PyStr
deriving DecidableEq

/-- One cleaned roster row (`app.py:154-168`, after key derivation,
renaming, column selection and upper+strip of the account name). -/
structure AccountRecord where
  Zone : Option PyStr
  Lab_name_Masterlist : Option PyStr
  State : Option PyStr
  AccountOwner : Option PyStr
  CustomerType : Option PyStr
  Truelab_id : PyStr
deriving DecidableEq

/-- Cleaning of one roster row (`app.py:154-168`): derive `Truelab_id`
from the serial/batch cell, rename the display columns, upper+strip the
account name (propagating a missing cell).  No roster row is dropped. -/
def cleanAccount (m : RawAccount) : AccountRecord :=
  { Zone := m.Zone
    Lab_name_Masterlist := m.AccountName.map (fun s => pyStrip (pyUpper s))
    State := m.BillingState
    AccountOwner := m.AccountOwnerFullName
    CustomerType := m.CType
    Truelab_id := deriveKey m.SerialBatch }

/-- The Cleaner, roster side: clean every row, dropping none. -/
def clean_master (ms : List RawAccount) : List AccountRecord :=
  ms.map cleanAccount

/-- One row of `pd.merge(mst, runs_summary, on='Truelab_id',
how='left')` before classification: the account columns plus the
matched aggregate columns (all `none` when unmatched). -/
structure JoinedRow where
  acct : AccountRecord
  agg : Option DeviceAggregate
deriving DecidableEq

/-- The aggregates whose key equals the account's key, in table order. -/
def matchesOf (rs : List DeviceAggregate) (a : AccountRecord) :
    List DeviceAggregate :=
  rs.filter (fun g => g.Truelab_id == a.Truelab_id)

/-- Left outer join on `Truelab_id` (`app.py:171`): every left row is
kept in order; a row with no key match is paired with missing aggregate
columns, a row with matches is paired with each match in order. -/
def leftJoin (mst : List AccountRecord) (rs : List DeviceAggregate) :
    List JoinedRow :=
  mst.flatMap (fun a =>
    if matchesOf rs a = [] then [⟨a, none⟩]
    else (matchesOf rs a).map (fun g => ⟨a, some g⟩))

/-- One row of the first output sheet (`final`, `app.py:171-180`). -/
structure ConnectivityRow where
  index : Nat
  Zone : Option PyStr
  Lab_name_Masterlist : Option PyStr
  State : Option PyStr
  AccountOwner : Option PyStr
  CustomerType : Option PyStr
  Truelab_id : PyStr
  Lab_name_Dashboard : Option PyStr
  Last_Run_Date : Option Nat
  Total_Runs : Nat
  Status : PyStr
deriving DecidableEq

/-- Classification of one joined row (`app.py:172-180`):
`np.where(Total_Runs.isna(), 'Inactive', 'Active')`, then
`fillna(0).astype(int)` on `Total_Runs`, then `reset_index` attaches
the 0-based position `i`. -/
def classifyRow (i : Nat) (j : JoinedRow) : ConnectivityRow :=
  { index := i
    Zone := j.acct.Zone
    Lab_name_Masterlist := j.acct.Lab_name_Masterlist
    State := j.acct.State
    AccountOwner := j.acct.AccountOwner
    CustomerType := j.acct.CustomerType
    Truelab_id := j.acct.Truelab_id
    Lab_name_Dashboard := j.agg.bind (fun g => g.Lab_name_Dashboard)
    Last_Run_Date := j.agg.bind (fun g => g.Last_Run_Date)
    Total_Runs := (j.agg.map (fun g => g.Total_Runs)).getD 0
    Status := if (j.agg.map (fun g => g.Total_Runs)) = none
              then inactiveStr else activeStr }

/-- The Reconciler (`app.py:171-180`): left join, classify, index. -/
def final (mst : List AccountRecord) (rs : List DeviceAggregate) :
    List ConnectivityRow :=
  (leftJoin mst rs).enum.map (fun p => classifyRow p.1 p.2)

/-- One row of the second output sheet (`summary`). -/
structure SummaryRow where
  State : PyStr
  CustomerType : PyStr
  Active_Count : Nat
  Inactive_Count : Nat
  Total_Count : Nat
deriving DecidableEq

/-- The `(State, Customer Type)` group key of a connectivity row;
`none` when either component is missing (pandas `groupby` drops such
rows, `dropna=True` being the default). -/
def pairOf (c : ConnectivityRow) : Option (PyStr × PyStr) :=
  match c.State, c.CustomerType with
  | some s, some t => some (s, t)
  | _, _ => none

/-- Whether a row belongs to the `(State, Customer Type)` group `p`. -/
def pairMatches (p : PyStr × PyStr) (c : ConnectivityRow) : Bool :=
  c.State == some p.1 && c.CustomerType == some p.2

/-- `groupby(['State','Customer Type']).size()` (`app.py:186-187`):
one `(pair, row count)` entry per distinct non-null pair. -/
def sizeByPair (rows : List ConnectivityRow) :
    List ((PyStr × PyStr) × Nat) :=
  (dedupFirst (rows.filterMap pairOf)).map
    (fun p => (p, rows.countP (pairMatches p)))

/-- Association-list lookup by exact pair key. -/
def lookupPair (p : PyStr × PyStr) :
    List ((PyStr × PyStr) × Nat) → Option Nat
  | [] => none
  | e :: t => if e.1 = p then some e.2 else lookupPair p t

/-- `active_summary` (`app.py:186`): per-pair sizes of the Active
partition. -/
def active_summary (rows : List ConnectivityRow) :
    List ((PyStr × PyStr) × Nat) :=
  sizeByPair (rows.filter (fun c => c.Status == activeStr))

/-- `inactive_summary` (`app.py:187`): per-pair sizes of the Inactive
partition. -/
def inactive_summary (rows : List ConnectivityRow) :
    List ((PyStr × PyStr) × Nat) :=
  sizeByPair (rows.filter (fun c => c.Status == inactiveStr))

/-- The Summarizer (`app.py:183-196`): the two partition size tables,
outer-merged on `(State, Customer Type)` (keys of the active table in
order, then the inactive-only keys), missing counts filled with 0, and
`Total_Count` their sum. -/
def summary (rows : List ConnectivityRow) : List SummaryRow :=
  ((active_summary rows).map (fun pn =>
    { State := pn.1.1
      CustomerType := pn.1.2
      Active_Count := pn.2
      Inactive_Count := (lookupPair pn.1 (inactive_summary rows)).getD 0
      Total_Count :=
        pn.2 + (lookupPair pn.1 (inactive_summary rows)).getD 0 }))
  ++ (((inactive_summary rows).filter
        (fun pn => (lookupPair pn.1 (active_summary rows)).isNone)).map
      (fun pn =>
    { State := pn.1.1
      CustomerType := pn.1.2
      Active_Count := 0
      Inactive_Count := pn.2
      Total_Count := 0 + pn.2 }))


/-! ## Character- and string-level lemmas -/

theorem char_toNat_ofNat {n : Nat} (h : n.isValidChar) :
    (Char.ofNat n).toNat = n := by
  rw [Char.ofNat, dif_pos h]
  simp [Char.ofNatAux, Char.toNat, UInt32.toNat]

theorem toUpper_toNat (c : Char) :
    (Char.toUpper c).toNat =
      if c.toNat ≥ 97 ∧ c.toNat ≤ 122 then c.toNat - 32 else c.toNat := by
  rw [Char.toUpper]
  split
  · next h => exact char_toNat_ofNat (Or.inl (by omega))
  · rfl

theorem char_eq_iff_toNat {a b : Char} : a = b ↔ a.toNat = b.toNat :=
  ⟨fun h => h ▸ rfl, fun h => Char.ext (UInt32.toNat.inj h)⟩

theorem toUpper_idem (c : Char) :
    Char.toUpper (Char.toUpper c) = Char.toUpper c := by
  rw [char_eq_iff_toNat]
  simp only [toUpper_toNat]
  split_ifs <;> omega

theorem toUpper_ne_hyphen {c : Char} (h : ¬(c == '-') = true) :
    ¬(Char.toUpper c == '-') = true := by
  simp only [beq_iff_eq, char_eq_iff_toNat] at h ⊢
  rw [toUpper_toNat]
  have hd : ('-').toNat = 45 := rfl
  rw [hd] at h ⊢
  split_ifs <;> omega

theorem isWs_toUpper (c : Char) : isWs (Char.toUpper c) = isWs c := by
  rw [Bool.eq_iff_iff]
  simp only [isWs, Bool.or_eq_true, beq_iff_eq, toUpper_toNat]
  split_ifs with h
  · omega
  · exact Iff.rfl

theorem pyUpper_idem (s : PyStr) : pyUpper (pyUpper s) = pyUpper s := by
  unfold pyUpper
  rw [List.map_map]
  congr 1
  funext c
  exact toUpper_idem c

theorem pyUpper_pyStrip (s : PyStr) :
    pyStrip (pyUpper s) = pyUpper (pyStrip s) := by
  have hfun : isWs ∘ Char.toUpper = isWs := funext fun c => isWs_toUpper c
  unfold pyStrip pyUpper List.rdropWhile
  rw [List.dropWhile_map, hfun, ← List.map_reverse, List.dropWhile_map,
    hfun, ← List.map_reverse]

theorem dropWhile_rdropWhile_fix {p : Char → Bool} {l : PyStr}
    (h : l.dropWhile p = l) :
    (l.rdropWhile p).dropWhile p = l.rdropWhile p := by
  cases hr : l.rdropWhile p with
  | nil => rfl
  | cons a t =>
    obtain ⟨rest, hrest⟩ := List.rdropWhile_prefix p l
    rw [hr] at hrest
    have hl : l = a :: (t ++ rest) := by rw [← hrest]; simp
    have hpa : p a = false := by
      by_contra hb
      have hb' : p a = true := by
        cases hx : p a
        · exact absurd hx hb
        · rfl
      rw [hl, List.dropWhile_cons_of_pos hb'] at h
      have hle := (List.dropWhile_suffix p (l := t ++ rest)).sublist.length_le
      have hlen := congrArg List.length h
      simp only [List.length_cons, List.length_append] at hle hlen
      omega
    simp [List.dropWhile_cons, hpa]

theorem pyStrip_idem (s : PyStr) : pyStrip (pyStrip s) = pyStrip s := by
  show pyStrip ((s.dropWhile isWs).rdropWhile isWs) = pyStrip s
  unfold pyStrip
  rw [dropWhile_rdropWhile_fix (List.dropWhile_idempotent isWs s),
    List.rdropWhile_idempotent]

theorem mem_of_mem_pyStrip {x : Char} {s : PyStr} (h : x ∈ pyStrip s) :
    x ∈ s := by
  unfold pyStrip at h
  have h1 : x ∈ (s.dropWhile isWs) :=
    ((List.rdropWhile_prefix isWs _).sublist).mem h
  exact ((List.dropWhile_suffix isWs).sublist).mem h1

theorem noHyphen_deriveStr {s : PyStr} {c : Char} (hc : c ∈ deriveStr s) :
    (c == '-') = false := by
  unfold deriveStr at hc
  have hc' : c ∈ pyUpper (s.takeWhile fun c => !(c == '-')) :=
    mem_of_mem_pyStrip hc
  rw [pyUpper, List.mem_map] at hc'
  obtain ⟨d, hd, rfl⟩ := hc'
  have hne := List.mem_takeWhile_imp hd
  have hd' : ¬(d == '-') = true := by simp_all
  have hu := toUpper_ne_hyphen hd'
  cases hx : (Char.toUpper d == '-')
  · rfl
  · exact absurd hx hu

theorem deriveStr_idem (s : PyStr) :
    deriveStr (deriveStr s) = deriveStr s := by
  conv_lhs => rw [deriveStr]
  rw [List.takeWhile_eq_self_iff.mpr
    (fun x hx => by simp [noHyphen_deriveStr hx])]
  conv_lhs => rw [deriveStr]
  rw [pyUpper_pyStrip, pyStrip_idem, ← pyUpper_pyStrip, pyUpper_idem]
  rfl

/-- C8: device-identifier derivation (the substring before the first
hyphen, upper-cased, trimmed) is idempotent: applying it to an
already-derived identifier yields the same identifier, both on plain
strings and on raw (possibly missing) cells. -/
theorem derive_idempotent :
    (∀ s : PyStr, deriveStr (deriveStr s) = deriveStr s) ∧
    (∀ v : Option PyStr, deriveKey (some (deriveKey v)) = deriveKey v) :=
  ⟨deriveStr_idem, fun v => deriveStr_idem (pyInputStr v)⟩


/-! ## Aggregator lemmas (C2, C5) -/

theorem mem_dedupSeen {α : Type} [DecidableEq α] {x : α} {l : List α} :
    ∀ {seen : List α}, x ∈ dedupSeen seen l ↔ (x ∈ l ∧ x ∉ seen) := by
  induction l with
  | nil => intro seen; simp [dedupSeen]
  | cons a t ih =>
    intro seen
    rw [dedupSeen]
    split
    · next hmem =>
      rw [ih]
      constructor
      · rintro ⟨h1, h2⟩; exact ⟨List.mem_cons_of_mem a h1, h2⟩
      · rintro ⟨h1, h2⟩
        rcases List.mem_cons.mp h1 with rfl | h1
        · exact absurd hmem h2
        · exact ⟨h1, h2⟩
    · next hmem =>
      constructor
      · intro hx
        rcases List.mem_cons.mp hx with rfl | hx
        · exact ⟨List.mem_cons_self x t, hmem⟩
        · obtain ⟨h1, h2⟩ := ih.mp hx
          exact ⟨List.mem_cons_of_mem a h1,
            fun hs => h2 (List.mem_cons_of_mem a hs)⟩
      · rintro ⟨h1, h2⟩
        by_cases hxa : x = a
        · subst hxa; exact List.mem_cons_self x _
        · rcases List.mem_cons.mp h1 with rfl | h1
          · exact absurd rfl hxa
          · refine List.mem_cons_of_mem a (ih.mpr ⟨h1, fun hs => ?_⟩)
            rcases List.mem_cons.mp hs with rfl | hs
            · exact hxa rfl
            · exact h2 hs

theorem mem_dedupFirst {α : Type} [DecidableEq α] {x : α} {l : List α} :
    x ∈ dedupFirst l ↔ x ∈ l := by
  rw [dedupFirst, mem_dedupSeen]
  simp

/-- An aggregate row is exactly the aggregation of the group of some
cleaned run record's device identifier. -/
theorem mem_runs_summary {rows : List CleanRun} {agg : DeviceAggregate} :
    agg ∈ runs_summary rows ↔
      ∃ r, r ∈ rows ∧
        agg = aggregateGroup r.Truelab_id (groupOf rows r.Truelab_id) := by
  unfold runs_summary
  rw [List.mem_map]
  constructor
  · rintro ⟨k, hk, rfl⟩
    rw [mem_dedupFirst, List.mem_map] at hk
    obtain ⟨r, hr, rfl⟩ := hk
    exact ⟨r, hr, rfl⟩
  · rintro ⟨r, hr, rfl⟩
    refine ⟨r.Truelab_id, ?_, rfl⟩
    rw [mem_dedupFirst, List.mem_map]
    exact ⟨r, hr, rfl⟩

theorem aggregateGroup_key (k : PyStr) (g : List CleanRun) :
    (aggregateGroup k g).Truelab_id = k := rfl

theorem getLast?_filterMap_of_last {α β : Type} {f : α → Option β}
    {l : List α} {r : α} {v : β} (hl : l.getLast? = some r)
    (hv : f r = some v) : (l.filterMap f).getLast? = some v := by
  obtain ⟨ys, rfl⟩ := List.getLast?_eq_some_iff.mp hl
  rw [List.filterMap_append]
  simp [List.filterMap_cons, hv]

/-- A cleaned run record with every cell missing and an empty device
identifier, to be updated per test case. -/
def cr0 : CleanRun :=
  ⟨none, none, none, none, none, none, none, none, [], none, none,
    none, none, none, none, none, none, none, none, none⟩

/-- A cleaned record of device `TL1` whose `Patient_id` is missing. -/
def crNP : CleanRun := { cr0 with Truelab_id := "TL1".toList }

/-- C2, counterexample: for a group consisting of one cleaned record
whose `Patient_id` is missing, `Total_Runs` is 0, not the group's row
count 1 — pandas `('Patient_id','count')` counts non-null values only. -/
theorem total_runs_rowcount_cex :
    ¬ (∀ agg ∈ runs_summary [crNP],
        agg.Total_Runs = (groupOf [crNP] agg.Truelab_id).length) := by
  decide

/-- C2, amended: each aggregate's `Total_Runs` equals the number of
rows of its device-identifier group whose `Patient_id` is non-null;
in particular it equals the group's row count whenever every group
member has a `Patient_id`. -/
theorem total_runs_counts_nonnull_patients (rows : List CleanRun)
    (agg : DeviceAggregate) (h : agg ∈ runs_summary rows) :
    agg.Total_Runs =
      ((groupOf rows agg.Truelab_id).filterMap
        (fun r => r.Patient_id)).length ∧
    ((∀ r ∈ groupOf rows agg.Truelab_id, r.Patient_id ≠ none) →
      agg.Total_Runs = (groupOf rows agg.Truelab_id).length) := by
  rw [mem_runs_summary] at h
  obtain ⟨r0, hr0, rfl⟩ := h
  rw [aggregateGroup_key]
  refine ⟨rfl, fun hall => ?_⟩
  show ((groupOf rows r0.Truelab_id).filterMap
    (fun r => r.Patient_id)).length = _
  rw [List.filterMap_length_eq_length]
  intro r hr
  exact Option.isSome_iff_ne_none.mpr (hall r hr)

/-- A cleaned record of device `TL1` with a `Patient_id`. -/
def crP1 : CleanRun :=
  { cr0 with Truelab_id := "TL1".toList, Patient_id := some "P1".toList }

theorem total_runs_counts_nonnull_patients_witness :
    (aggregateGroup ("TL1".toList)
        (groupOf [crP1] ("TL1".toList))).Total_Runs =
      ((groupOf [crP1] ("TL1".toList)).filterMap
        (fun r => r.Patient_id)).length ∧
    (aggregateGroup ("TL1".toList)
        (groupOf [crP1] ("TL1".toList))).Total_Runs =
      (groupOf [crP1] ("TL1".toList)).length :=
  have h := total_runs_counts_nonnull_patients [crP1]
    (aggregateGroup ("TL1".toList) (groupOf [crP1] ("TL1".toList)))
    (by decide)
  ⟨h.1, h.2 (by decide)⟩

/-- A cleaned record of device `TL2` with lab name `A`. -/
def crA : CleanRun :=
  { cr0 with Truelab_id := "TL2".toList, Lab_name := some "A".toList }

/-- A cleaned record of device `TL2` whose lab name is missing. -/
def crB : CleanRun := { cr0 with Truelab_id := "TL2".toList }

/-- C5, counterexample: in a group whose sequentially last row has a
missing `Lab_name` but an earlier row has lab name `A`, the aggregate's
`Lab_name_Dashboard` is `A`, not the last row's (missing) value —
pandas `('Lab_name','last')` takes the last non-null value. -/
theorem lab_name_last_row_cex :
    ¬ (∀ agg ∈ runs_summary [crA, crB],
        agg.Lab_name_Dashboard =
          ((groupOf [crA, crB] agg.Truelab_id).getLast?.bind
            (fun r => r.Lab_name))) := by
  decide

/-- C5, amended: each aggregate's `Lab_name_Dashboard` is the last
non-null `Lab_name` of its group in original row order: it equals the
sequentially last row's value whenever that value is non-null, and is
null exactly when every group member's `Lab_name` is null. -/
theorem lab_name_last_nonnull (rows : List CleanRun)
    (agg : DeviceAggregate) (h : agg ∈ runs_summary rows) :
    agg.Lab_name_Dashboard =
      ((groupOf rows agg.Truelab_id).filterMap
        (fun r => r.Lab_name)).getLast? ∧
    (∀ r v, (groupOf rows agg.Truelab_id).getLast? = some r →
      r.Lab_name = some v → agg.Lab_name_Dashboard = some v) ∧
    (agg.Lab_name_Dashboard = none ↔
      ∀ r ∈ groupOf rows agg.Truelab_id, r.Lab_name = none) := by
  rw [mem_runs_summary] at h
  obtain ⟨r0, hr0, rfl⟩ := h
  rw [aggregateGroup_key]
  refine ⟨rfl, fun r v hlast hv => ?_, ?_⟩
  · show ((groupOf rows r0.Truelab_id).filterMap
      (fun r => r.Lab_name)).getLast? = some v
    exact getLast?_filterMap_of_last hlast hv
  · show ((groupOf rows r0.Truelab_id).filterMap
      (fun r => r.Lab_name)).getLast? = none ↔ _
    rw [List.getLast?_eq_none_iff, List.filterMap_eq_nil_iff]

theorem lab_name_last_nonnull_witness :
    (aggregateGroup ("TL2".toList)
        (groupOf [crA] ("TL2".toList))).Lab_name_Dashboard =
      ((groupOf [crA] ("TL2".toList)).filterMap
        (fun r => r.Lab_name)).getLast? :=
  (lab_name_last_nonnull [crA]
    (aggregateGroup ("TL2".toList) (groupOf [crA] ("TL2".toList)))
    (by decide)).1


/-! ## Reconciler lemmas (C1, C3, C6) -/

theorem active_ne_inactive : activeStr ≠ inactiveStr := by decide

theorem classifyRow_key (i : Nat) (j : JoinedRow) :
    (classifyRow i j).Truelab_id = j.acct.Truelab_id := rfl

theorem classifyRow_status_iff (i : Nat) (j : JoinedRow) :
    ((classifyRow i j).Status = inactiveStr ↔ j.agg = none) ∧
    ((classifyRow i j).Status = activeStr ↔ j.agg ≠ none) := by
  obtain ⟨a, o⟩ := j
  cases o with
  | none =>
    refine ⟨by simp [classifyRow], ?_⟩
    simp only [classifyRow]
    simp
    exact fun h => active_ne_inactive h.symm
  | some g =>
    constructor <;> simp [classifyRow, active_ne_inactive]

theorem mem_final_decomp {mst : List AccountRecord}
    {rs : List DeviceAggregate} {c : ConnectivityRow}
    (h : c ∈ final mst rs) :
    ∃ i j, j ∈ leftJoin mst rs ∧ c = classifyRow i j := by
  unfold final at h
  rw [List.mem_map] at h
  obtain ⟨p, hp, rfl⟩ := h
  exact ⟨p.1, p.2, List.get?_mem (List.mem_enum_iff_get?.mp hp), rfl⟩

theorem mem_leftJoin_cases {mst : List AccountRecord}
    {rs : List DeviceAggregate} {j : JoinedRow} (h : j ∈ leftJoin mst rs) :
    ∃ a, a ∈ mst ∧
      ((matchesOf rs a = [] ∧ j = ⟨a, none⟩) ∨
       (∃ g, g ∈ rs ∧ g.Truelab_id = a.Truelab_id ∧ j = ⟨a, some g⟩)) := by
  unfold leftJoin at h
  rw [List.mem_flatMap] at h
  obtain ⟨a, ha, hj⟩ := h
  refine ⟨a, ha, ?_⟩
  split at hj
  · next hm => exact Or.inl ⟨hm, List.mem_singleton.mp hj⟩
  · next hm =>
    rw [List.mem_map] at hj
    obtain ⟨g, hg, rfl⟩ := hj
    have hf := List.mem_filter.mp hg
    exact Or.inr ⟨g, hf.1, by simpa using hf.2, rfl⟩

/-- C1: a connectivity row's Status is `Inactive` exactly when no
aggregate carries its device identifier (the merged total run count is
null), `Active` otherwise; the null count is replaced by the integer 0,
while a matched row keeps its aggregate's count. -/
theorem status_inactive_iff_unmatched (mst : List AccountRecord)
    (rs : List DeviceAggregate) (c : ConnectivityRow)
    (h : c ∈ final mst rs) :
    (c.Status = inactiveStr ↔ ∀ g ∈ rs, g.Truelab_id ≠ c.Truelab_id) ∧
    (c.Status = activeStr ↔ ∃ g ∈ rs, g.Truelab_id = c.Truelab_id) ∧
    (c.Status = inactiveStr → c.Total_Runs = 0) ∧
    (c.Status = activeStr →
      ∃ g ∈ rs, g.Truelab_id = c.Truelab_id ∧ c.Total_Runs = g.Total_Runs) := by
  obtain ⟨i, j, hj, rfl⟩ := mem_final_decomp h
  obtain ⟨a, ha, hcase⟩ := mem_leftJoin_cases hj
  rcases hcase with ⟨hm, rfl⟩ | ⟨g, hg, hkey, rfl⟩
  · have hstat : (classifyRow i ⟨a, none⟩).Status = inactiveStr := rfl
    have hnomatch : ∀ g ∈ rs, g.Truelab_id ≠ a.Truelab_id := by
      intro g hgr heq
      have hq := List.filter_eq_nil_iff.mp hm g hgr
      simp [heq] at hq
    rw [hstat, classifyRow_key]
    refine ⟨iff_of_true rfl hnomatch, ?_, fun _ => rfl, ?_⟩
    · refine iff_of_false (fun hx => active_ne_inactive hx.symm) ?_
      rintro ⟨g, hgr, heq⟩
      exact hnomatch g hgr heq
    · intro hx
      exact absurd hx.symm active_ne_inactive
  · have hstat : (classifyRow i ⟨a, some g⟩).Status = activeStr := rfl
    rw [hstat, classifyRow_key]
    refine ⟨?_, iff_of_true rfl ⟨g, hg, hkey⟩, ?_, fun _ => ⟨g, hg, hkey, rfl⟩⟩
    · refine iff_of_false (fun hx => active_ne_inactive hx) ?_
      intro hall
      exact hall g hg hkey
    · intro hx
      exact absurd hx active_ne_inactive


theorem matchesOf_len_le_one {rs : List DeviceAggregate}
    (hnd : (rs.map (fun g => g.Truelab_id)).Nodup) (a : AccountRecord) :
    (matchesOf rs a).length ≤ 1 := by
  induction rs with
  | nil => simp [matchesOf]
  | cons g t ih =>
    rw [List.map_cons, List.nodup_cons] at hnd
    obtain ⟨hg, hnd'⟩ := hnd
    unfold matchesOf
    rw [List.filter_cons]
    by_cases hp : (g.Truelab_id == a.Truelab_id) = true
    · have hnil : t.filter (fun x => x.Truelab_id == a.Truelab_id) = [] := by
        rw [List.filter_eq_nil_iff]
        intro x hx hxa
        apply hg
        rw [List.mem_map]
        refine ⟨x, hx, ?_⟩
        have h1 : x.Truelab_id = a.Truelab_id := by simpa using hxa
        have h2 : g.Truelab_id = a.Truelab_id := by simpa using hp
        rw [h1, h2]
      rw [if_pos hp, hnil]
      simp
    · rw [if_neg hp]
      exact ih hnd'

theorem leftJoin_eq_map_of_nodup {mst : List AccountRecord}
    {rs : List DeviceAggregate}
    (hnd : (rs.map (fun g => g.Truelab_id)).Nodup) :
    leftJoin mst rs =
      mst.map (fun a => ⟨a, (matchesOf rs a).head?⟩) := by
  unfold leftJoin
  induction mst with
  | nil => rfl
  | cons a t ih =>
    rw [List.flatMap_cons, List.map_cons, ih]
    cases hm : matchesOf rs a with
    | nil => simp
    | cons g rest =>
      have hlen := matchesOf_len_le_one hnd a
      rw [hm] at hlen
      have hrest : rest = [] := by
        cases rest with
        | nil => rfl
        | cons x xs => simp at hlen
      subst hrest
      simp

theorem final_length_of_nodup {mst : List AccountRecord}
    {rs : List DeviceAggregate}
    (hnd : (rs.map (fun g => g.Truelab_id)).Nodup) :
    (final mst rs).length = mst.length := by
  unfold final
  rw [leftJoin_eq_map_of_nodup hnd]
  simp [List.enum]

theorem final_get?_of_nodup {mst : List AccountRecord}
    {rs : List DeviceAggregate}
    (hnd : (rs.map (fun g => g.Truelab_id)).Nodup)
    (i : Nat) (a : AccountRecord) (ha : mst.get? i = some a) :
    (final mst rs).get? i =
      some (classifyRow i ⟨a, (matchesOf rs a).head?⟩) := by
  unfold final
  rw [leftJoin_eq_map_of_nodup hnd, List.get?_map, List.get?_enum,
    List.get?_map, ha]
  rfl


theorem matchesOf_eq_nil_iff {rs : List DeviceAggregate}
    {a : AccountRecord} :
    matchesOf rs a = [] ↔ ∀ g ∈ rs, g.Truelab_id ≠ a.Truelab_id := by
  unfold matchesOf
  rw [List.filter_eq_nil_iff]
  constructor
  · intro h g hg heq
    exact h g hg (by simpa using heq)
  · intro h g hg hbe
    exact h g hg (by simpa using hbe)

/-- C3: when the aggregate table is keyed uniquely by device
identifier, the Reconciler's output has exactly one row per
AccountRecord, positionally: row `i` carries account `i`'s fields and
the 0-based index `i`, and an unmatched account's dashboard-lab and
last-run fields are null. -/
theorem reconciler_preserves_left (mst : List AccountRecord)
    (rs : List DeviceAggregate)
    (hnd : (rs.map (fun g => g.Truelab_id)).Nodup) :
    (final mst rs).length = mst.length ∧
    ∀ i a, mst.get? i = some a →
      ∃ c, (final mst rs).get? i = some c ∧ c.index = i ∧
        c.Zone = a.Zone ∧ c.Lab_name_Masterlist = a.Lab_name_Masterlist ∧
        c.State = a.State ∧ c.AccountOwner = a.AccountOwner ∧
        c.CustomerType = a.CustomerType ∧ c.Truelab_id = a.Truelab_id ∧
        ((∀ g ∈ rs, g.Truelab_id ≠ a.Truelab_id) →
          c.Lab_name_Dashboard = none ∧ c.Last_Run_Date = none ∧
          c.Status = inactiveStr) := by
  refine ⟨final_length_of_nodup hnd, fun i a ha => ?_⟩
  refine ⟨classifyRow i ⟨a, (matchesOf rs a).head?⟩,
    final_get?_of_nodup hnd i a ha, rfl, rfl, rfl, rfl, rfl, rfl, rfl,
    fun hnomatch => ?_⟩
  have hm : matchesOf rs a = [] := matchesOf_eq_nil_iff.mpr hnomatch
  rw [hm]
  exact ⟨rfl, rfl, rfl⟩

/-- C6, amended: an account whose derived device identifier is the
empty string still occupies exactly one output row, but it is not
automatically unmatched: it is Inactive exactly when no aggregate's
key is the empty string, and Active when some aggregate (one built
from run records whose raw id starts with a hyphen) also derives the
empty key. -/
theorem empty_key_account_status (mst : List AccountRecord)
    (rs : List DeviceAggregate)
    (hnd : (rs.map (fun g => g.Truelab_id)).Nodup)
    (i : Nat) (a : AccountRecord) (ha : mst.get? i = some a)
    (hkey : a.Truelab_id = []) :
    ∃ c, (final mst rs).get? i = some c ∧ c.Truelab_id = ([] : PyStr) ∧
      (c.Status = inactiveStr ↔ ∀ g ∈ rs, g.Truelab_id ≠ ([] : PyStr)) ∧
      (c.Status = activeStr ↔ ∃ g ∈ rs, g.Truelab_id = ([] : PyStr)) := by
  refine ⟨classifyRow i ⟨a, (matchesOf rs a).head?⟩,
    final_get?_of_nodup hnd i a ha,
    by rw [classifyRow_key]; exact hkey, ?_, ?_⟩
  · rw [(classifyRow_status_iff i _).1]
    show (matchesOf rs a).head? = none ↔ _
    rw [List.head?_eq_none_iff, matchesOf_eq_nil_iff, hkey]
  · rw [(classifyRow_status_iff i _).2]
    show ¬(matchesOf rs a).head? = none ↔ _
    rw [List.head?_eq_none_iff, matchesOf_eq_nil_iff, hkey]
    push_neg
    rfl

/-- A concrete cleaned account of device `TL1` in Texas. -/
def acct1 : AccountRecord :=
  ⟨none, none, some "TX".toList, none, some "CLINIC".toList,
    "TL1".toList⟩

/-- A concrete aggregate for device `TL1` with 2 runs. -/
def agg1 : DeviceAggregate :=
  ⟨"TL1".toList, 2, some 5, some "LAB".toList⟩

theorem status_inactive_iff_unmatched_witness :
    (classifyRow 0 ⟨acct1, some agg1⟩).Status = activeStr ↔
      ∃ g ∈ [agg1],
        g.Truelab_id = (classifyRow 0 ⟨acct1, some agg1⟩).Truelab_id :=
  (status_inactive_iff_unmatched [acct1] [agg1]
    (classifyRow 0 ⟨acct1, some agg1⟩) (by decide)).2.1

theorem reconciler_preserves_left_witness :
    (final [acct1] [agg1]).length = [acct1].length :=
  (reconciler_preserves_left [acct1] [agg1] (by decide)).1

/-- A concrete cleaned account whose derived key is empty. -/
def acctE : AccountRecord := ⟨none, none, none, none, none, []⟩

/-- A concrete aggregate whose key is empty. -/
def aggE : DeviceAggregate := ⟨[], 1, none, none⟩

theorem empty_key_account_status_witness :
    ∃ c, (final [acctE] [aggE]).get? 0 = some c ∧
      c.Truelab_id = ([] : PyStr) ∧
      (c.Status = inactiveStr ↔
        ∀ g ∈ [aggE], g.Truelab_id ≠ ([] : PyStr)) ∧
      (c.Status = activeStr ↔
        ∃ g ∈ [aggE], g.Truelab_id = ([] : PyStr)) :=
  empty_key_account_status [acctE] [aggE] (by decide) 0 acctE
    (by decide) (by decide)

/-- A raw run record with every cell missing. -/
def rr0 : RawRun :=
  ⟨none, none, none, none, none, none, none, none, none, none, none,
    none, none, none, none, none, none, none, none, none⟩

/-- Trivial date parser (no claim depends on which strings parse). -/
def pd0 : PyStr → Option Nat := fun _ => none

/-- Trivial numeric parser. -/
def pn0 : PyStr → Option Int := fun _ => none

/-- A raw roster row whose serial is `-1` (derived key: empty). -/
def rawAcctE : RawAccount :=
  ⟨none, none, none, none, none, some "-1".toList⟩

/-- A raw run record whose device id is `-2` (derived key: empty). -/
def rawRunE : RawRun :=
  { rr0 with Truelab_id := some "-2".toList,
             User_name := some "admin".toList }

/-- C6, counterexample: an account whose serial `-1` derives the empty
key is NOT classified Inactive when a run record with raw id `-2`
(also deriving the empty key) exists — the two empty keys join, so the
account comes out Active. -/
theorem empty_key_inactive_cex :
    ¬ (∀ c ∈ final (clean_master [rawAcctE])
          (runs_summary (clean_runs pd0 pn0 [rawRunE])),
        c.Truelab_id = ([] : PyStr) → c.Status = inactiveStr) := by
  decide


/-! ## Cleaner claims (C7, C9, C10) -/

/-- C7: a date or Ct cell whose value fails to parse is cleaned to a
null in that field; the cleaner is a total function (parse failures
surface only as `none`, never as an exception). -/
theorem parse_failures_are_nulls (pdate : PyStr → Option Nat)
    (pnum : PyStr → Option Int) (r : RawRun) :
    (∀ s, r.Test_date_time = some s → pdate s = none →
      (cleanRun pdate pnum r).Test_date_time = none) ∧
    (∀ s, r.Result_recieved_date = some s → pdate s = none →
      (cleanRun pdate pnum r).Result_recieved_date = none) ∧
    (∀ s, r.Ct1 = some s → pnum s = none →
      (cleanRun pdate pnum r).Ct1 = none) ∧
    (∀ s, r.Ct2 = some s → pnum s = none →
      (cleanRun pdate pnum r).Ct2 = none) ∧
    (∀ s, r.Ct3 = some s → pnum s = none →
      (cleanRun pdate pnum r).Ct3 = none) := by
  refine ⟨?_, ?_, ?_, ?_, ?_⟩ <;>
    (intro s hs hp; simp [cleanRun, hs, hp])

/-- A raw run record whose date and Ct cells are all present. -/
def rrAll : RawRun :=
  { rr0 with Test_date_time := some "x".toList,
             Result_recieved_date := some "x".toList,
             Ct1 := some "x".toList, Ct2 := some "x".toList,
             Ct3 := some "x".toList }

theorem parse_failures_are_nulls_witness :
    (cleanRun pd0 pn0 rrAll).Test_date_time = none ∧
    (cleanRun pd0 pn0 rrAll).Result_recieved_date = none ∧
    (cleanRun pd0 pn0 rrAll).Ct1 = none ∧
    (cleanRun pd0 pn0 rrAll).Ct2 = none ∧
    (cleanRun pd0 pn0 rrAll).Ct3 = none :=
  have h := parse_failures_are_nulls pd0 pn0 rrAll
  ⟨h.1 ("x".toList) rfl rfl, h.2.1 ("x".toList) rfl rfl,
    h.2.2.1 ("x".toList) rfl rfl, h.2.2.2.1 ("x".toList) rfl rfl,
    h.2.2.2.2 ("x".toList) rfl rfl⟩

/-- C9: the Service filter removes exactly the rows whose `User_name`
cell equals the string `Service` (case-sensitive): a cleaned row exists
for precisely the raw rows whose username is missing or is any other
string. -/
theorem service_filter_exact (pdate : PyStr → Option Nat)
    (pnum : PyStr → Option Int) (rows : List RawRun) (c : CleanRun) :
    c ∈ clean_runs pdate pnum rows ↔
      ∃ r, r ∈ rows ∧ ¬ r.User_name = some serviceStr ∧
        c = cleanRun pdate pnum r := by
  unfold clean_runs
  rw [List.mem_map]
  constructor
  · rintro ⟨r, hr, rfl⟩
    have hf := List.mem_filter.mp hr
    refine ⟨r, hf.1, ?_, rfl⟩
    simpa using hf.2
  · rintro ⟨r, hr, hne, rfl⟩
    exact ⟨r, List.mem_filter.mpr ⟨hr, by simpa using hne⟩, rfl⟩

/-- C10: the derived device identifier is never null: both cleaners
apply `astype(str)` before the split/upper/strip derivation, so every
cleaned run record's and account's key is `deriveKey` of the raw cell,
and a missing raw cell derives the literal string `NAN`. -/
theorem derived_key_never_null :
    deriveKey none = "NAN".toList ∧
    (∀ pdate pnum r, (cleanRun pdate pnum r).Truelab_id =
      deriveKey r.Truelab_id) ∧
    (∀ m, (cleanAccount m).Truelab_id = deriveKey m.SerialBatch) :=
  ⟨by decide, fun _ _ _ => rfl, fun _ => rfl⟩


/-! ## Summarizer lemmas (C4) -/

theorem pairOf_eq_some {c : ConnectivityRow} {p : PyStr × PyStr} :
    pairOf c = some p ↔ c.State = some p.1 ∧ c.CustomerType = some p.2 := by
  unfold pairOf
  obtain ⟨st, ct⟩ := p
  cases hs : c.State with
  | none => simp
  | some s =>
    cases ht : c.CustomerType with
    | none => simp
    | some t => simp [Prod.ext_iff]

theorem pairMatches_iff {p : PyStr × PyStr} {c : ConnectivityRow} :
    pairMatches p c = true ↔
      c.State = some p.1 ∧ c.CustomerType = some p.2 := by
  unfold pairMatches
  rw [Bool.and_eq_true, beq_iff_eq, beq_iff_eq]

theorem mem_pairs_iff {rows : List ConnectivityRow} {p : PyStr × PyStr} :
    p ∈ dedupFirst (rows.filterMap pairOf) ↔
      ∃ c ∈ rows, c.State = some p.1 ∧ c.CustomerType = some p.2 := by
  rw [mem_dedupFirst, List.mem_filterMap]
  constructor
  · rintro ⟨c, hc, hp⟩
    exact ⟨c, hc, pairOf_eq_some.mp hp⟩
  · rintro ⟨c, hc, h1, h2⟩
    exact ⟨c, hc, pairOf_eq_some.mpr ⟨h1, h2⟩⟩

theorem lookupPair_map_self (f : PyStr × PyStr → Nat)
    (l : List (PyStr × PyStr)) (p : PyStr × PyStr) :
    lookupPair p (l.map (fun q => (q, f q))) =
      if p ∈ l then some (f p) else none := by
  induction l with
  | nil => simp [lookupPair]
  | cons q t ih =>
    rw [List.map_cons, lookupPair]
    by_cases hqp : q = p
    · subst hqp
      rw [if_pos rfl, if_pos (List.mem_cons_self q t)]
    · rw [if_neg hqp, ih]
      by_cases hp : p ∈ t
      · rw [if_pos hp, if_pos (List.mem_cons_of_mem q hp)]
      · rw [if_neg hp, if_neg]
        intro hx
        rcases List.mem_cons.mp hx with rfl | hx
        · exact hqp rfl
        · exact hp hx

theorem lookupPair_sizeByPair (rows : List ConnectivityRow)
    (p : PyStr × PyStr) :
    lookupPair p (sizeByPair rows) =
      if p ∈ dedupFirst (rows.filterMap pairOf)
      then some (rows.countP (pairMatches p)) else none := by
  unfold sizeByPair
  exact lookupPair_map_self (fun q => rows.countP (pairMatches q)) _ p

theorem getD_lookupPair_sizeByPair (rows : List ConnectivityRow)
    (p : PyStr × PyStr) :
    (lookupPair p (sizeByPair rows)).getD 0 =
      rows.countP (pairMatches p) := by
  rw [lookupPair_sizeByPair]
  split
  · rfl
  · next hnp =>
    rw [Option.getD_none, eq_comm, List.countP_eq_zero]
    intro c hc hm
    obtain ⟨h1, h2⟩ := pairMatches_iff.mp hm
    exact hnp (mem_pairs_iff.mpr ⟨c, hc, h1, h2⟩)

theorem status_cases {mst : List AccountRecord}
    {rs : List DeviceAggregate} {c : ConnectivityRow}
    (h : c ∈ final mst rs) :
    c.Status = activeStr ∨ c.Status = inactiveStr := by
  obtain ⟨i, j, hj, rfl⟩ := mem_final_decomp h
  obtain ⟨a, o⟩ := j
  cases o with
  | none => exact Or.inr rfl
  | some g => exact Or.inl rfl

theorem countP_split_status (rows : List ConnectivityRow)
    (hst : ∀ c ∈ rows, c.Status = activeStr ∨ c.Status = inactiveStr)
    (p : ConnectivityRow → Bool) :
    rows.countP p =
      (rows.filter (fun c => c.Status == activeStr)).countP p +
      (rows.filter (fun c => c.Status == inactiveStr)).countP p := by
  induction rows with
  | nil => rfl
  | cons c t ih =>
    have hc := hst c (List.mem_cons_self c t)
    have iht := ih (fun x hx => hst x (List.mem_cons_of_mem c hx))
    rcases hc with hA | hI
    · have hAb : (c.Status == activeStr) = true := by simpa using hA
      have hIb : (c.Status == inactiveStr) = false := by
        rw [beq_eq_false_iff_ne]
        rw [hA]
        exact active_ne_inactive
      rw [List.countP_cons, List.filter_cons, hAb, List.filter_cons, hIb]
      simp only [if_true, Bool.false_eq_true, if_false]
      rw [List.countP_cons, iht]
      omega
    · have hAb : (c.Status == activeStr) = false := by
        rw [beq_eq_false_iff_ne]
        rw [hI]
        exact fun hx => active_ne_inactive hx.symm
      have hIb : (c.Status == inactiveStr) = true := by simpa using hI
      rw [List.countP_cons, List.filter_cons, hAb, List.filter_cons, hIb]
      simp only [if_true, Bool.false_eq_true, if_false]
      rw [List.countP_cons, iht]
      omega


/-- C4, amended: for every `(State, Customer Type)` pair with both
components non-null appearing among the connectivity rows, the
Summarizer emits a row whose Active/Inactive counts are the per-status
row counts of that pair (0 for a status partition where the pair is
absent) and whose `Total_Count` is their sum, equal to the number of
connectivity rows with that pair regardless of Status. -/
theorem summary_total_counts (mst : List AccountRecord)
    (rs : List DeviceAggregate) (st ct : PyStr)
    (h : ∃ c ∈ final mst rs,
      c.State = some st ∧ c.CustomerType = some ct) :
    ∃ srow ∈ summary (final mst rs),
      srow.State = st ∧ srow.CustomerType = ct ∧
      srow.Active_Count = ((final mst rs).filter
        (fun c => c.Status == activeStr)).countP (pairMatches (st, ct)) ∧
      srow.Inactive_Count = ((final mst rs).filter
        (fun c => c.Status == inactiveStr)).countP (pairMatches (st, ct)) ∧
      srow.Total_Count = (final mst rs).countP (pairMatches (st, ct)) ∧
      srow.Total_Count = srow.Active_Count + srow.Inactive_Count := by
  obtain ⟨c0, hc0, hs0, ht0⟩ := h
  have hsplit := countP_split_status (final mst rs)
    (fun c hc => status_cases hc) (pairMatches (st, ct))
  by_cases hA : (st, ct) ∈ dedupFirst
      (((final mst rs).filter
        (fun c => c.Status == activeStr)).filterMap pairOf)
  · have hgd : (lookupPair (st, ct)
        (inactive_summary (final mst rs))).getD 0 =
        ((final mst rs).filter
          (fun c => c.Status == inactiveStr)).countP
          (pairMatches (st, ct)) :=
      getD_lookupPair_sizeByPair _ _
    unfold summary
    refine ⟨_, List.mem_append_left _ (List.mem_map.mpr
      ⟨((st, ct), ((final mst rs).filter
          (fun c => c.Status == activeStr)).countP
          (pairMatches (st, ct))),
        List.mem_map.mpr ⟨(st, ct), hA, rfl⟩, rfl⟩),
      rfl, rfl, rfl, ?_, ?_, ?_⟩
    · exact hgd
    · rw [hsplit, hgd]
    · rw [hgd]
  · have hnoact : ∀ c ∈ (final mst rs).filter
        (fun c => c.Status == activeStr),
        ¬(c.State = some st ∧ c.CustomerType = some ct) := by
      intro c hc hcc
      exact hA (mem_pairs_iff.mpr ⟨c, hc, hcc.1, hcc.2⟩)
    have hc0I : c0.Status = inactiveStr := by
      rcases status_cases hc0 with hAc | hIc
      · exact absurd ⟨hs0, ht0⟩
          (hnoact c0 (List.mem_filter.mpr ⟨hc0, by simpa using hAc⟩))
      · exact hIc
    have hI : (st, ct) ∈ dedupFirst
        (((final mst rs).filter
          (fun c => c.Status == inactiveStr)).filterMap pairOf) :=
      mem_pairs_iff.mpr
        ⟨c0, List.mem_filter.mpr ⟨hc0, by simpa using hc0I⟩, hs0, ht0⟩
    have hcntA : ((final mst rs).filter
        (fun c => c.Status == activeStr)).countP
        (pairMatches (st, ct)) = 0 := by
      rw [List.countP_eq_zero]
      intro c hc hm
      obtain ⟨h1, h2⟩ := pairMatches_iff.mp hm
      exact hnoact c hc ⟨h1, h2⟩
    have hlknone : (lookupPair (st, ct)
        (active_summary (final mst rs))).isNone = true := by
      unfold active_summary
      rw [lookupPair_sizeByPair, if_neg hA]
      rfl
    unfold summary
    refine ⟨_, List.mem_append_right _ (List.mem_map.mpr
      ⟨((st, ct), ((final mst rs).filter
          (fun c => c.Status == inactiveStr)).countP
          (pairMatches (st, ct))),
        List.mem_filter.mpr
          ⟨List.mem_map.mpr ⟨(st, ct), hI, rfl⟩, hlknone⟩, rfl⟩),
      rfl, rfl, hcntA.symm, rfl, ?_, rfl⟩
    rw [hsplit, hcntA]


/-- A concrete cleaned account with a missing State and customer type
`CLINIC`. -/
def acctN : AccountRecord :=
  ⟨none, none, none, none, some "CLINIC".toList, "TLX".toList⟩

/-- C4, counterexample: the pair (null State, `CLINIC`) appears among
the connectivity rows, yet the Summarizer emits no row at all for it —
`groupby(['State','Customer Type'])` drops rows with a null grouping
key — so no SummaryRow carries its count. -/
theorem summary_null_pair_cex :
    ¬ ((∃ c ∈ final [acctN] [], c.State = none ∧
          c.CustomerType = some ("CLINIC".toList)) →
       ∃ srow ∈ summary (final [acctN] []),
         srow.Total_Count = (final [acctN] []).countP
           (fun c => c.State == (none : Option PyStr) &&
             c.CustomerType == some ("CLINIC".toList))) := by
  decide

theorem summary_total_counts_witness :
    ∃ srow ∈ summary (final [acct1] [agg1]),
      srow.State = "TX".toList ∧ srow.CustomerType = "CLINIC".toList ∧
      srow.Active_Count = ((final [acct1] [agg1]).filter
        (fun c => c.Status == activeStr)).countP
        (pairMatches ("TX".toList, "CLINIC".toList)) ∧
      srow.Inactive_Count = ((final [acct1] [agg1]).filter
        (fun c => c.Status == inactiveStr)).countP
        (pairMatches ("TX".toList, "CLINIC".toList)) ∧
      srow.Total_Count = (final [acct1] [agg1]).countP
        (pairMatches ("TX".toList, "CLINIC".toList)) ∧
      srow.Total_Count = srow.Active_Count + srow.Inactive_Count :=
  summary_total_counts [acct1] [agg1] ("TX".toList) ("CLINIC".toList)
    (by decide)

end Connectivity
